import Mathlib

/-!
# Deluge firmware: AudioOutput recording source, MIDI-learn forwarding, automation lanes

Shallow embedding of

* `src/deluge/processing/audio_output.h`: the inline member functions
  `getOutputRecordingFrom`, `clearRecordingFrom`, `setOutputRecordingFrom`,
  `offerReceivedCCToLearnedParams` and `offerReceivedPitchBendToLearnedParams`;
* the automation-lane operations that `src/deluge/gui/views/automation_clip_view.h`
  only declares (their bodies are in a translation unit that is not part of the
  sources at hand), modelled from the specification, sections 3, 4.2 and 4.4.

Pointers to outputs are `Option Nat` (`none` is `nullptr`, `some i` the output
with identity `i`).  Member functions of the base classes whose bodies are not
available (`Output::setRenderingToAudioOutput`, the two `ModControllableAudio`
MIDI-learn functions) are parameters; every call to them is also recorded in a
trace so that "which calls were made" can be stated.
-/

namespace Deluge

/-! ## AudioOutput (audio_output.h) -/

/-- An `Output*`: `none` is `nullptr`, `some i` points at the output with identity `i`. -/
abbrev OutputPtr := Option Nat

/-- One call `target->setRenderingToAudioOutput(monitoring, output)`. -/
structure RenderCall where
  target : Nat
  monitoring : Bool
  output : OutputPtr
  deriving DecidableEq, Repr

/-- The outputs of the song as seen through their `Output` base class (state type `σ`,
declared in `model/output.h`), and the trace of `setRenderingToAudioOutput` calls made so far. -/
structure Outputs (σ : Type) where
  base : Nat → σ
  calls : List RenderCall

/-- The data members of `AudioOutput` declared in `audio_output.h` (lines 76-94 and 119).
`Envelope` and `AudioInputChannel` are declared in headers that are not available and are
type parameters; `int32_t` and `int16_t` members are carried as integers (no arithmetic is
done on them here). -/
structure AudioOutput (Envelope AudioInputChannel : Type) where
  envelope : Envelope
  amplitudeLastTime : Int
  overrideAmplitudeEnvelopeReleaseRate : Int
  inputChannel : AudioInputChannel
  outputRecordingFromIndex : Int
  echoing : Bool
  outputRecordingFrom : OutputPtr

/-- The call `target->setRenderingToAudioOutput(monitoring, output)`.  The body of this
`Output` member function is in `model/output.h`; its effect on the `Output` it is called on
is the parameter `impl`.  The call is appended to the trace. -/
def Output.setRenderingToAudioOutput {σ : Type} (impl : Bool → OutputPtr → σ → σ)
    (target : Nat) (monitoring : Bool) (output : OutputPtr) (w : Outputs σ) : Outputs σ :=
  { base := Function.update w.base target (impl monitoring output (w.base target))
    calls := w.calls ++ [{ target := target, monitoring := monitoring, output := output }] }

/-- Source: `Output* getOutputRecordingFrom() { return outputRecordingFrom; }`. -/
def AudioOutput.getOutputRecordingFrom {E C : Type} (a : AudioOutput E C) : OutputPtr :=
  a.outputRecordingFrom

/-- Source: `AudioOutput::setOutputRecordingFrom` (audio_output.h, lines 98-107).
`self` is the identity of the `AudioOutput` itself (the `this` passed to the new source).
```
if (outputRecordingFrom) { outputRecordingFrom->setRenderingToAudioOutput(false, nullptr); }
outputRecordingFrom = toRecordfrom;
if (outputRecordingFrom) { outputRecordingFrom->setRenderingToAudioOutput(monitoring, this); }
echoing = monitoring;
```
-/
def AudioOutput.setOutputRecordingFrom {σ E C : Type} (impl : Bool → OutputPtr → σ → σ)
    (self : Nat) (toRecordfrom : OutputPtr) (monitoring : Bool)
    (s : AudioOutput E C × Outputs σ) : AudioOutput E C × Outputs σ :=
  let w1 : Outputs σ :=
    match s.1.outputRecordingFrom with
    | some p => Output.setRenderingToAudioOutput impl p false none s.2
    | none => s.2
  let a1 : AudioOutput E C := { s.1 with outputRecordingFrom := toRecordfrom }
  let w2 : Outputs σ :=
    match a1.outputRecordingFrom with
    | some p => Output.setRenderingToAudioOutput impl p monitoring (some self) w1
    | none => w1
  ({ a1 with echoing := monitoring }, w2)

/-- Source: `void clearRecordingFrom() override { setOutputRecordingFrom(nullptr, false); }`. -/
def AudioOutput.clearRecordingFrom {σ E C : Type} (impl : Bool → OutputPtr → σ → σ)
    (self : Nat) (s : AudioOutput E C × Outputs σ) : AudioOutput E C × Outputs σ :=
  AudioOutput.setOutputRecordingFrom impl self none false s

/-! ### MIDI learn forwarding -/

/-- One call to a MIDI-learn member function of `ModControllableAudio`, with its five
arguments in order (`Dev` is `MIDIDevice*`, `MS` is `ModelStackWithTimelineCounter*`,
the three `uint8_t` arguments are carried as numbers). -/
inductive LearnCall (Dev MS : Type) where
  | ccForClip (fromDevice : Dev) (channel ccNumber value : Nat) (modelStack : MS)
  | pitchBend (fromDevice : Dev) (channel data1 data2 : Nat) (modelStack : MS)
  deriving DecidableEq, Repr

/-- The state the MIDI-learn functions act on (type `S`), with the trace of calls made to
the `ModControllableAudio` functions. -/
structure LearnState (S Dev MS : Type) where
  state : S
  trace : List (LearnCall Dev MS)

/-- The call `ModControllableAudio::offerReceivedCCToLearnedParamsForClip(...)`; its body is
in `model/mod_controllable/mod_controllable_audio.cpp` and is the parameter `impl`. -/
def ModControllableAudio.offerReceivedCCToLearnedParamsForClip {S Dev MS : Type}
    (impl : Dev → Nat → Nat → Nat → MS → S → S)
    (fromDevice : Dev) (channel ccNumber value : Nat) (modelStack : MS)
    (s : LearnState S Dev MS) : LearnState S Dev MS :=
  { state := impl fromDevice channel ccNumber value modelStack s.state
    trace := s.trace ++ [LearnCall.ccForClip fromDevice channel ccNumber value modelStack] }

/-- The call `ModControllableAudio::offerReceivedPitchBendToLearnedParams(...)`; its body is
the parameter `impl`, which gives the returned `bool` and the new state. -/
def ModControllableAudio.offerReceivedPitchBendToLearnedParams {S Dev MS : Type}
    (impl : Dev → Nat → Nat → Nat → MS → S → Bool × S)
    (fromDevice : Dev) (channel data1 data2 : Nat) (modelStack : MS)
    (s : LearnState S Dev MS) : Bool × LearnState S Dev MS :=
  ((impl fromDevice channel data1 data2 modelStack s.state).1,
   { state := (impl fromDevice channel data1 data2 modelStack s.state).2
     trace := s.trace ++ [LearnCall.pitchBend fromDevice channel data1 data2 modelStack] })

/-- Source: `AudioOutput::offerReceivedCCToLearnedParams` (audio_output.h, lines 64-67). -/
def AudioOutput.offerReceivedCCToLearnedParams {S Dev MS : Type}
    (impl : Dev → Nat → Nat → Nat → MS → S → S)
    (fromDevice : Dev) (channel ccNumber value : Nat) (modelStack : MS)
    (s : LearnState S Dev MS) : LearnState S Dev MS :=
  ModControllableAudio.offerReceivedCCToLearnedParamsForClip impl fromDevice channel ccNumber
    value modelStack s

/-- Source: `AudioOutput::offerReceivedPitchBendToLearnedParams` (audio_output.h, lines 68-72). -/
def AudioOutput.offerReceivedPitchBendToLearnedParams {S Dev MS : Type}
    (impl : Dev → Nat → Nat → Nat → MS → S → Bool × S)
    (fromDevice : Dev) (channel data1 data2 : Nat) (modelStack : MS)
    (s : LearnState S Dev MS) : Bool × LearnState S Dev MS :=
  ModControllableAudio.offerReceivedPitchBendToLearnedParams impl fromDevice channel data1
    data2 modelStack s

/-! ## Automation lanes (specification sections 3 and 4.2)

`automation_clip_view.h` declares `getParameterKnobPos`, `setParameterAutomationValue`,
`shiftAutomationHorizontally` and `getNextSelectedParamArrayPosition` without bodies.
The definitions below follow the wording of the specification. -/

/-- Modelled from the spec: the `AutomationNode` of section 3 (the node type `ParamNode` is
declared in `modulation/params/param_node.h`, which is not available): a tick position and a
signed fixed-point value. -/
structure AutomationNode where
  position : Nat
  value : Int
  deriving DecidableEq, Repr

/-- Modelled from the spec: the `AutomationLane` of section 3 (the lane type is not declared
in the available sources): the nodes in storage order, the interpolation flag (`false` is
stepped, `true` is linear-ramped) and the effective length in ticks.  The owning parameter
identity and the borrowed owner reference are read by none of the operations below and are
left out. -/
structure AutomationLane where
  nodes : List AutomationNode
  interpolated : Bool
  effectiveLength : Nat
  deriving DecidableEq, Repr

/-- Positions strictly increase in storage order (section 3 and section 8, "Invariant"). -/
def StrictlyIncreasing (ns : List AutomationNode) : Prop :=
  ns.Pairwise (fun a b => a.position < b.position)

instance (ns : List AutomationNode) : Decidable (StrictlyIncreasing ns) :=
  inferInstanceAs
    (Decidable (List.Pairwise (fun a b : AutomationNode => a.position < b.position) ns))

/-- The lane invariant of section 3: positions strictly increase (so no two nodes share a
position) and every position lies in `[0, effectiveLength)`. -/
def AutomationLane.WellFormed (lane : AutomationLane) : Prop :=
  StrictlyIncreasing lane.nodes ∧ ∀ n ∈ lane.nodes, n.position < lane.effectiveLength

instance (lane : AutomationLane) : Decidable lane.WellFormed :=
  inferInstanceAs (Decidable
    (StrictlyIncreasing lane.nodes ∧ ∀ n ∈ lane.nodes, n.position < lane.effectiveLength))

/-- Modelled from the spec: "the last node whose position ≤ query position" (section 4.2). -/
def lastAtOrBefore (ns : List AutomationNode) (pos : Nat) : Option AutomationNode :=
  (ns.filter (fun n => decide (n.position ≤ pos))).getLast?

/-- Modelled from the spec: "first node > position" (section 4.2). -/
def firstAfter (ns : List AutomationNode) (pos : Nat) : Option AutomationNode :=
  ns.find? (fun n => decide (pos < n.position))

/-- Modelled from the spec: linear interpolation between `a` and `b` at `pos` (section 4.2,
linear mode): the value moves from `a.value` to `b.value` over the positional span
`[a.position, b.position)`, the span and the distance of `pos` from `a` being taken across the
loop end when `b` precedes `a` cyclically; the result is rounded to the nearest value, a tie
going toward the later node `b`. -/
def interpolate (a b : AutomationNode) (pos len : Nat) : Int :=
  let span : Nat :=
    if a.position < b.position then b.position - a.position else b.position + len - a.position
  let dist : Nat := if a.position ≤ pos then pos - a.position else pos + len - a.position
  let delta : Int := b.value - a.value
  let steps : Nat := (2 * delta.natAbs * dist + span) / (2 * span)
  if 0 ≤ delta then a.value + (steps : Int) else a.value - (steps : Int)

/-- Modelled from the spec: `evaluate(lane, position) -> value` of section 4.2 (the body of
`AutomationClipView::getParameterKnobPos` is not available).  An empty lane gives the static
value.  Stepped mode gives the value of the last node at or before the position, wrapping to
the last node of the lane when the position precedes the first node.  Linear mode takes `a` the
last node at or before the position and `b` the first node after the position, wrapping to the
first node of the lane, returns the value of `a` when `a` and `b` are the same node, and
interpolates otherwise.  (For a position that precedes the first node the specification names
no `a` in linear mode; the wrap to the last node of stepped mode is used there.) -/
def evaluate (lane : AutomationLane) (staticValue : Int) (pos : Nat) : Int :=
  match lane.nodes.getLast?, lane.nodes.head? with
  | some lastNode, some firstNode =>
    let a := (lastAtOrBefore lane.nodes pos).getD lastNode
    if lane.interpolated then
      let b := (firstAfter lane.nodes pos).getD firstNode
      if a = b then a.value else interpolate a b pos lane.effectiveLength
    else a.value
  | _, _ => staticValue

/-- Insertion of a node into a position-ordered node list: a node already at that exact
position is overwritten, otherwise the node is placed so that positions stay ordered. -/
def insertNode (n : AutomationNode) : List AutomationNode → List AutomationNode
  | [] => [n]
  | m :: ms =>
    if n.position < m.position then n :: m :: ms
    else if n.position = m.position then n :: ms
    else m :: insertNode n ms

/-- Modelled from the spec: `setNode(lane, position, value)` of section 4.2 (the body of
`AutomationClipView::setParameterAutomationValue` is not available): keeps positions unique and
ordered and "overwrites an existing node at that exact position rather than duplicating". -/
def setNode (lane : AutomationLane) (position : Nat) (value : Int) : AutomationLane :=
  { lane with nodes := insertNode { position := position, value := value } lane.nodes }

/-- Modelled from the spec: `removeNode(lane, position)` of section 4.2: the node at that
position, if any, is dropped. -/
def removeNode (lane : AutomationLane) (position : Nat) : AutomationLane :=
  { lane with nodes := lane.nodes.filter (fun n => decide (n.position ≠ position)) }

/-- Modelled from the spec: `clear(lane)` of section 4.2: all nodes are dropped. -/
def clear (lane : AutomationLane) : AutomationLane :=
  { lane with nodes := [] }

/-- The position of a node after a shift by `tickOffset`: "modulo effectiveLength". -/
def shiftPosition (len : Nat) (tickOffset : Int) (position : Nat) : Nat :=
  (((position : Int) + tickOffset) % (len : Int)).toNat

/-- A node moved by `tickOffset`, its value kept. -/
def shiftNode (len : Nat) (tickOffset : Int) (n : AutomationNode) : AutomationNode :=
  { n with position := shiftPosition len tickOffset n.position }

/-- Modelled from the spec: `shiftHorizontally(lane, tickOffset)` of section 4.2 (the body of
`AutomationClipView::shiftAutomationHorizontally` is not available): "rewrites every node's
position modulo effectiveLength"; the nodes are re-entered in storage order, so when two nodes
land on the same tick "the colliding earlier node is overwritten (later-shifted node wins)". -/
def shiftHorizontally (lane : AutomationLane) (tickOffset : Int) : AutomationLane :=
  { lane with
    nodes := lane.nodes.foldl
      (fun acc n => insertNode (shiftNode lane.effectiveLength tickOffset n) acc) [] }

/-- Lanes reachable from an empty lane by `setNode`, `removeNode` and `clear`. -/
inductive Reachable : AutomationLane → Prop where
  | empty (interpolated : Bool) (effectiveLength : Nat) :
      Reachable { nodes := [], interpolated := interpolated, effectiveLength := effectiveLength }
  | setNode {lane : AutomationLane} (position : Nat) (value : Int) :
      Reachable lane → Reachable (setNode lane position value)
  | removeNode {lane : AutomationLane} (position : Nat) :
      Reachable lane → Reachable (removeNode lane position)
  | clear {lane : AutomationLane} : Reachable lane → Reachable (clear lane)

/-! ## Selection and navigation (specification section 4.4) -/

/-- Modelled from the spec: `AutomationClipView::getNextSelectedParamArrayPosition` (declared
in `automation_clip_view.h`, line 172; its body is not available).  Section 4.4: "Navigation
wraps within the active catalog": the next index is the current index plus the offset, taken
modulo the number of parameters of the catalog.  The "automation overview" sentinel is a
selection state with no parameter chosen, hence with no current index; this function is the
step from a chosen parameter. -/
def getNextSelectedParamArrayPosition (offset lastSelectedParamArrayPosition numParams : Int) :
    Int :=
  (lastSelectedParamArrayPosition + offset) % numParams


instance : IsAntisymm AutomationNode (fun a b => a.position < b.position) :=
  ⟨fun _ _ h1 h2 => absurd h1 (Nat.lt_asymm h2)⟩

/-- The lane of the "Wraparound" property of section 8 with values filled in: nodes at
positions 4 and 12 out of length 16, linear mode. -/
def exampleLane : AutomationLane :=
  { nodes := [{ position := 4, value := 10 }, { position := 12, value := 50 }]
    interpolated := true
    effectiveLength := 16 }

/-- An `AudioOutput` that records from output 3 and monitors it. -/
def exampleAudioOutput : AudioOutput Unit Nat :=
  { envelope := ()
    amplitudeLastTime := 0
    overrideAmplitudeEnvelopeReleaseRate := 0
    inputChannel := 7
    outputRecordingFromIndex := -1
    echoing := true
    outputRecordingFrom := some 3 }

/-! ## Lemmas on node lists -/

theorem mem_insertNode (n x : AutomationNode) (ns : List AutomationNode) :
    x ∈ insertNode n ns → x = n ∨ x ∈ ns := by
  induction ns with
  | nil => intro h; simpa [insertNode] using h
  | cons m ms ih =>
    intro h
    unfold insertNode at h
    split_ifs at h with h1 h2
    · simpa using h
    · simp only [List.mem_cons] at h ⊢
      tauto
    · simp only [List.mem_cons] at h ⊢
      rcases h with h | h
      · tauto
      · have := ih h; tauto

theorem insertNode_strictlyIncreasing (n : AutomationNode) (ns : List AutomationNode)
    (h : StrictlyIncreasing ns) : StrictlyIncreasing (insertNode n ns) := by
  unfold StrictlyIncreasing at *
  induction ns with
  | nil => simp [insertNode]
  | cons m ms ih =>
    have hm := List.pairwise_cons.1 h
    unfold insertNode
    split_ifs with h1 h2
    · refine List.pairwise_cons.2 ⟨?_, h⟩
      intro x hx
      rcases List.mem_cons.1 hx with hx | hx
      · subst hx; exact h1
      · exact lt_trans h1 (hm.1 x hx)
    · refine List.pairwise_cons.2 ⟨?_, hm.2⟩
      intro x hx
      rw [h2]; exact hm.1 x hx
    · refine List.pairwise_cons.2 ⟨?_, ih hm.2⟩
      intro x hx
      rcases mem_insertNode n x ms hx with hx | hx
      · subst hx; omega
      · exact hm.1 x hx

theorem insertNode_existing (n : AutomationNode) (ns : List AutomationNode)
    (h : StrictlyIncreasing ns) (hpos : ∃ m ∈ ns, m.position = n.position) :
    insertNode n ns
      = ns.map (fun m => if m.position = n.position then { m with value := n.value } else m) := by
  unfold StrictlyIncreasing at *
  induction ns with
  | nil => obtain ⟨m, hm, _⟩ := hpos; cases hm
  | cons m ms ih =>
    have hm := List.pairwise_cons.1 h
    obtain ⟨x, hx, hxp⟩ := hpos
    unfold insertNode
    split_ifs with h1 h2
    · exfalso
      rcases List.mem_cons.1 hx with hx | hx
      · subst hx; omega
      · have := hm.1 x hx; omega
    · simp only [List.map_cons]
      rw [if_pos h2.symm]
      congr 1
      · cases n; cases m; simp_all
      · have hid : ∀ y ∈ ms, (fun m => if m.position = n.position
            then { m with value := n.value } else m) y = id y := by
          intro y hy
          have := hm.1 y hy
          have hne : ¬ y.position = n.position := by omega
          simp [hne]
        rw [List.map_congr_left hid, List.map_id]
    · have hne : ¬ m.position = n.position := fun h => h2 h.symm
      simp only [List.map_cons, hne, if_false]
      congr 1
      apply ih hm.2
      rcases List.mem_cons.1 hx with hx | hx
      · subst hx; exact absurd hxp hne
      · exact ⟨x, hx, hxp⟩

theorem lastAtOrBefore_self (ns : List AutomationNode) (h : StrictlyIncreasing ns)
    (n : AutomationNode) (hn : n ∈ ns) : lastAtOrBefore ns n.position = some n := by
  unfold StrictlyIncreasing at h
  unfold lastAtOrBefore
  induction ns with
  | nil => cases hn
  | cons m ms ih =>
    have hm := List.pairwise_cons.1 h
    rcases List.mem_cons.1 hn with hx | hx
    · subst hx
      have : ms.filter (fun x => decide (x.position ≤ n.position)) = [] := by
        rw [List.filter_eq_nil_iff]
        intro a ha
        have := hm.1 a ha
        simp; omega
      simp [List.filter_cons, this]
    · have hlt := hm.1 n hx
      have hne : ms.filter (fun x => decide (x.position ≤ n.position)) ≠ [] := by
        intro hnil
        rw [List.filter_eq_nil_iff] at hnil
        have := hnil n hx
        simp at this
      have hle : m.position ≤ n.position := le_of_lt hlt
      simp only [List.filter_cons, hle, decide_True, if_true]
      obtain ⟨y, ys, hy⟩ := List.exists_cons_of_ne_nil hne
      have := ih hm.2 hx
      rw [hy] at this ⊢
      rw [List.getLast?_cons_cons]
      exact this

theorem insertNode_perm (n : AutomationNode) (ns : List AutomationNode)
    (h : ∀ m ∈ ns, m.position ≠ n.position) : (insertNode n ns).Perm (n :: ns) := by
  induction ns with
  | nil => simp [insertNode]
  | cons m ms ih =>
    unfold insertNode
    split_ifs with h1 h2
    · exact List.Perm.refl _
    · exact absurd h2.symm (h m (List.mem_cons_self _ _))
    · have := ih (fun x hx => h x (List.mem_cons_of_mem _ hx))
      exact (List.Perm.cons m this).trans (List.Perm.swap n m ms)

theorem foldl_insertNode (f : AutomationNode → AutomationNode) (xs : List AutomationNode) :
    ∀ acc : List AutomationNode, StrictlyIncreasing acc →
      ((acc ++ xs.map f).map AutomationNode.position).Nodup →
      (xs.foldl (fun acc n => insertNode (f n) acc) acc).Perm (acc ++ xs.map f) ∧
        StrictlyIncreasing (xs.foldl (fun acc n => insertNode (f n) acc) acc) := by
  induction xs with
  | nil => intro acc hs _; simpa using hs
  | cons x xs ih =>
    intro acc hs hnd
    have hfresh : ∀ m ∈ acc, m.position ≠ (f x).position := by
      intro m hm heq
      rw [List.map_append, List.map_cons, List.map_cons] at hnd
      have h1 := (List.nodup_append.1 hnd).2.2
      exact h1 (List.mem_map_of_mem _ hm) (by rw [heq]; exact List.mem_cons_self _ _)
    have hp := insertNode_perm (f x) acc hfresh
    have hp2 : (insertNode (f x) acc ++ xs.map f).Perm (acc ++ (x :: xs).map f) := by
      rw [List.map_cons]
      exact (List.Perm.append_right _ hp).trans List.perm_middle.symm
    have hnd2 : ((insertNode (f x) acc ++ xs.map f).map AutomationNode.position).Nodup :=
      ((hp2.map _).nodup_iff).2 hnd
    have := ih (insertNode (f x) acc) (insertNode_strictlyIncreasing _ _ hs) hnd2
    exact ⟨this.1.trans hp2, this.2⟩

theorem shiftPosition_back (len : Nat) (k : Int) (p : Nat) (hp : p < len) :
    shiftPosition len (-k) (shiftPosition len k p) = p := by
  unfold shiftPosition
  have h1 : 0 ≤ ((p : Int) + k) % (len : Int) := Int.emod_nonneg _ (by omega)
  rw [Int.toNat_of_nonneg h1, Int.emod_add_emod]
  have : (p : Int) + k + -k = p := by ring
  rw [this, Int.emod_eq_of_lt (by omega) (by omega)]
  simp

theorem shiftNode_back (len : Nat) (k : Int) (n : AutomationNode) (hp : n.position < len) :
    shiftNode len (-k) (shiftNode len k n) = n := by
  cases n
  simp only [shiftNode] at *
  congr
  exact shiftPosition_back len k _ hp

theorem strictlyIncreasing_nodup (ns : List AutomationNode) (h : StrictlyIncreasing ns) :
    (ns.map AutomationNode.position).Nodup := by
  unfold StrictlyIncreasing at h
  rw [List.Nodup, List.pairwise_map]
  exact h.imp (fun hab => Nat.ne_of_lt hab)

/-- Under the lane invariant no tick offset induces a position collision. -/
theorem shiftNode_positions_nodup (lane : AutomationLane) (k : Int) (h : lane.WellFormed) :
    ((lane.nodes.map (shiftNode lane.effectiveLength k)).map AutomationNode.position).Nodup := by
  have hinj : ∀ a ∈ lane.nodes, ∀ b ∈ lane.nodes,
      (shiftNode lane.effectiveLength k a).position
        = (shiftNode lane.effectiveLength k b).position → a.position = b.position := by
    intro a ha b hb hab
    have h1 := shiftPosition_back lane.effectiveLength k a.position (h.2 a ha)
    have h2 := shiftPosition_back lane.effectiveLength k b.position (h.2 b hb)
    simp only [shiftNode] at hab
    rw [← h1, ← h2, hab]
  rw [List.Nodup, List.pairwise_map, List.pairwise_map]
  have hs : List.Pairwise (fun a b : AutomationNode => a.position < b.position) lane.nodes := h.1
  refine List.Pairwise.imp_of_mem ?_ hs
  intro a b ha hb hab heq
  have := hinj a ha b hb heq
  omega

/-- Clearing the example `AudioOutput` (recording from output 3) with an empty trace makes
the single call `3->setRenderingToAudioOutput(false, nullptr)`. -/
theorem clearRecordingFrom_example :
    (AudioOutput.clearRecordingFrom (fun _ _ (u : Unit) => u) 0
      (exampleAudioOutput, { base := fun _ => (), calls := [] })).2.calls
      = [{ target := 3, monitoring := false, output := none }] := by
  decide

/-! ## Verified properties -/

/-- C1: after `setOutputRecordingFrom(toRecordfrom, monitoring)`, `getOutputRecordingFrom()`
returns exactly `toRecordfrom` and `echoing` equals `monitoring`, for every state, every
target (null or not, equal to the previous source or not) and both values of `monitoring`. -/
theorem setOutputRecordingFrom_source_and_echoing {σ E C : Type}
    (impl : Bool → OutputPtr → σ → σ) (self : Nat) (toRecordfrom : OutputPtr)
    (monitoring : Bool) (s : AudioOutput E C × Outputs σ) :
    (AudioOutput.setOutputRecordingFrom impl self toRecordfrom monitoring
        s).1.getOutputRecordingFrom = toRecordfrom ∧
      (AudioOutput.setOutputRecordingFrom impl self toRecordfrom monitoring s).1.echoing
        = monitoring :=
  ⟨rfl, rfl⟩

/-- C2: after `clearRecordingFrom()`, `getOutputRecordingFrom()` returns null and `echoing` is
false; the calls made are exactly one `setRenderingToAudioOutput(false, nullptr)` on the
previous source when it was not null, and none at all otherwise; the `Output` state of every
output other than the previous source is untouched. -/
theorem clearRecordingFrom_effect {σ E C : Type}
    (impl : Bool → OutputPtr → σ → σ) (self : Nat) (s : AudioOutput E C × Outputs σ) :
    (AudioOutput.clearRecordingFrom impl self s).1.getOutputRecordingFrom = none ∧
      (AudioOutput.clearRecordingFrom impl self s).1.echoing = false ∧
      (AudioOutput.clearRecordingFrom impl self s).2.calls
        = s.2.calls ++
          (match s.1.outputRecordingFrom with
            | some p => [{ target := p, monitoring := false, output := none }]
            | none => []) ∧
      ∀ q : Nat, some q ≠ s.1.outputRecordingFrom →
        (AudioOutput.clearRecordingFrom impl self s).2.base q = s.2.base q := by
  refine ⟨rfl, rfl, ?_, ?_⟩
  · cases h : s.1.outputRecordingFrom <;>
      simp [AudioOutput.clearRecordingFrom, AudioOutput.setOutputRecordingFrom,
        Output.setRenderingToAudioOutput, h]
  · intro q hq
    cases h : s.1.outputRecordingFrom with
    | none => simp [AudioOutput.clearRecordingFrom, AudioOutput.setOutputRecordingFrom, h]
    | some p =>
      have hne : q ≠ p := fun e => hq (by rw [h, e])
      simp [AudioOutput.clearRecordingFrom, AudioOutput.setOutputRecordingFrom,
        Output.setRenderingToAudioOutput, h, Function.update_noteq hne]

/-- C3: for a lane whose positions strictly increase (the lane invariant) and every node of
it, evaluating at the node's own position returns the node's value, in stepped mode
(`mode = false`) and in linear mode (`mode = true`) alike. -/
theorem evaluate_at_node_position (lane : AutomationLane) (staticValue : Int)
    (n : AutomationNode) (hs : StrictlyIncreasing lane.nodes) (hn : n ∈ lane.nodes)
    (mode : Bool) :
    evaluate { lane with interpolated := mode } staticValue n.position = n.value := by
  obtain ⟨nodes, interp, len⟩ := lane
  simp only at hs hn
  have ha := lastAtOrBefore_self nodes hs n hn
  have hne : nodes ≠ [] := List.ne_nil_of_mem hn
  obtain ⟨l, hl⟩ : ∃ l, nodes.getLast? = some l :=
    ⟨nodes.getLast hne, List.getLast?_eq_getLast _ hne⟩
  obtain ⟨f, hf⟩ : ∃ f, nodes.head? = some f := by
    cases nodes with
    | nil => exact absurd rfl hne
    | cons x xs => exact ⟨x, rfl⟩
  simp only [evaluate, hl, hf, ha, Option.getD_some]
  cases mode with
  | false => simp
  | true =>
    simp only [if_true]
    split_ifs with hab
    · rfl
    · simp only [interpolate, le_refl, if_true, Nat.sub_self, Nat.mul_zero, Nat.zero_add]
      have hz : ∀ span : Nat, span / (2 * span) = 0 := by
        intro span
        rcases Nat.eq_zero_or_pos span with h0 | hpos
        · simp [h0]
        · exact Nat.div_eq_of_lt (by omega)
      rw [hz]
      simp

/-- Witness of C3 on the example lane: node (12, 50). -/
theorem evaluate_at_node_position_witness :
    StrictlyIncreasing exampleLane.nodes ∧
      ({ position := 12, value := 50 } : AutomationNode) ∈ exampleLane.nodes ∧
      evaluate { exampleLane with interpolated := true } 0 12 = 50 :=
  ⟨by decide, by decide,
    evaluate_at_node_position exampleLane 0 { position := 12, value := 50 }
      (by decide) (by decide) true⟩

/-- C4: in every lane reachable from an empty lane by `setNode`, `removeNode` and `clear`,
positions strictly increase in storage order; and in such a lane `setNode` at a position that
already holds a node replaces that node's value (every other node is kept as it is), so the
node count is unchanged. -/
theorem reachable_lane_invariant (lane : AutomationLane) (h : Reachable lane) :
    StrictlyIncreasing lane.nodes ∧
      ∀ (position : Nat) (value : Int), (∃ m ∈ lane.nodes, m.position = position) →
        (setNode lane position value).nodes
            = lane.nodes.map
                (fun m => if m.position = position then { m with value := value } else m) ∧
          (setNode lane position value).nodes.length = lane.nodes.length := by
  have hs : StrictlyIncreasing lane.nodes := by
    induction h with
    | empty i l => exact List.Pairwise.nil
    | setNode p v _ ih => exact insertNode_strictlyIncreasing _ _ ih
    | removeNode p _ ih => exact List.Pairwise.filter _ ih
    | clear _ _ => exact List.Pairwise.nil
  refine ⟨hs, ?_⟩
  intro position value hex
  have heq := insertNode_existing { position := position, value := value } lane.nodes hs hex
  have hmap : (setNode lane position value).nodes
      = lane.nodes.map
          (fun m => if m.position = position then { m with value := value } else m) := heq
  exact ⟨hmap, by rw [hmap, List.length_map]⟩

/-- Witness of C4: the lane obtained from an empty lane by `setNode 12 50` and `setNode 4 10`,
then overwritten at position 4. -/
theorem reachable_lane_invariant_witness :
    Reachable (setNode (setNode { nodes := [], interpolated := true, effectiveLength := 16 }
        12 50) 4 10) ∧
      StrictlyIncreasing (setNode (setNode
        { nodes := [], interpolated := true, effectiveLength := 16 } 12 50) 4 10).nodes ∧
      (setNode (setNode (setNode { nodes := [], interpolated := true, effectiveLength := 16 }
        12 50) 4 10) 4 99).nodes.length = 2 :=
  ⟨Reachable.setNode 4 10 (Reachable.setNode 12 50 (Reachable.empty true 16)),
    (reachable_lane_invariant _
      (Reachable.setNode 4 10 (Reachable.setNode 12 50 (Reachable.empty true 16)))).1,
    ((reachable_lane_invariant _
      (Reachable.setNode 4 10 (Reachable.setNode 12 50 (Reachable.empty true 16)))).2 4 99
        ⟨{ position := 4, value := 10 }, by decide, rfl⟩).2⟩

/-- C5: shift law.  For a lane satisfying the lane invariant (positions strictly increasing
and inside `[0, effectiveLength)`) and a tick offset `k` under which no two nodes land on the
same position, `shiftHorizontally(lane, k)` followed by `shiftHorizontally(lane, -k)` gives
back the original lane, node for node. -/
theorem shiftHorizontally_roundtrip (lane : AutomationLane) (k : Int) (h : lane.WellFormed)
    (hk : ((lane.nodes.map (shiftNode lane.effectiveLength k)).map
      AutomationNode.position).Nodup) :
    shiftHorizontally (shiftHorizontally lane k) (-k) = lane := by
  obtain ⟨nodes, interp, len⟩ := lane
  obtain ⟨hs, hr⟩ := h
  simp only at hs hr hk
  simp only [shiftHorizontally, AutomationLane.mk.injEq, and_true]
  have hnil : StrictlyIncreasing [] := List.Pairwise.nil
  obtain ⟨hp1, hs1⟩ := foldl_insertNode (shiftNode len k) nodes [] hnil (by simpa using hk)
  rw [List.nil_append] at hp1
  have hback : (nodes.map (shiftNode len k)).map (shiftNode len (-k)) = nodes := by
    rw [List.map_map]
    conv_rhs => rw [← List.map_id nodes]
    apply List.map_congr_left
    intro n hn
    exact shiftNode_back len k n (hr n hn)
  have hp2 : ((nodes.foldl (fun acc n => insertNode (shiftNode len k n) acc) []).map
      (shiftNode len (-k))).Perm nodes := by
    have := hp1.map (shiftNode len (-k))
    rwa [hback] at this
  have hnd2 : ((([] : List AutomationNode) ++
      (nodes.foldl (fun acc n => insertNode (shiftNode len k n) acc) []).map
        (shiftNode len (-k))).map AutomationNode.position).Nodup := by
    rw [List.nil_append]
    exact ((hp2.map _).nodup_iff).2 (strictlyIncreasing_nodup nodes hs)
  obtain ⟨hp3, hs3⟩ := foldl_insertNode (shiftNode len (-k)) _ [] hnil hnd2
  rw [List.nil_append] at hp3
  exact List.eq_of_perm_of_sorted (hp3.trans hp2) hs3 hs

/-- Witness of C5: the example lane shifted by 5 ticks (node 12 wraps to 1) and back. -/
theorem shiftHorizontally_roundtrip_witness :
    exampleLane.WellFormed ∧
      ((exampleLane.nodes.map (shiftNode exampleLane.effectiveLength 5)).map
        AutomationNode.position).Nodup ∧
      shiftHorizontally (shiftHorizontally exampleLane 5) (-5) = exampleLane :=
  ⟨by decide, by decide, shiftHorizontally_roundtrip exampleLane 5 (by decide) (by decide)⟩

/-- C6: for a catalog of `numParams >= 1` parameters, a current index in `[0, numParams)` and
an offset of +1 or -1, `getNextSelectedParamArrayPosition` returns an index in
`[0, numParams)`: the current index plus the offset when that is in range, the last index when
stepping back from the first, index 0 when stepping forward from the last. -/
theorem getNextSelectedParamArrayPosition_wraps (offset current numParams : Int)
    (hn : 1 ≤ numParams) (hlo : 0 ≤ current) (hhi : current < numParams)
    (ho : offset = 1 ∨ offset = -1) :
    (0 ≤ getNextSelectedParamArrayPosition offset current numParams ∧
        getNextSelectedParamArrayPosition offset current numParams < numParams) ∧
      (0 ≤ current + offset → current + offset < numParams →
        getNextSelectedParamArrayPosition offset current numParams = current + offset) ∧
      (current = 0 → offset = -1 →
        getNextSelectedParamArrayPosition offset current numParams = numParams - 1) ∧
      (current = numParams - 1 → offset = 1 →
        getNextSelectedParamArrayPosition offset current numParams = 0) := by
  unfold getNextSelectedParamArrayPosition
  refine ⟨⟨Int.emod_nonneg _ (by omega), Int.emod_lt_of_pos _ (by omega)⟩, ?_, ?_, ?_⟩
  · intro h1 h2
    exact Int.emod_eq_of_lt h1 h2
  · intro hc hoff
    subst hc hoff
    have hshift : ((0 : Int) + -1) % numParams = (numParams - 1) % numParams := by
      rw [← Int.add_emod_self]
      congr 1
      ring
    rw [hshift]
    exact Int.emod_eq_of_lt (by omega) (by omega)
  · intro hc hoff
    subst hc hoff
    simp

/-- Witness of C6: stepping back from index 0 in a catalog of 5 parameters selects index 4. -/
theorem getNextSelectedParamArrayPosition_wraps_witness :
    getNextSelectedParamArrayPosition (-1) 0 5 = 5 - 1 :=
  (getNextSelectedParamArrayPosition_wraps (-1) 0 5 (by decide) (by decide) (by decide)
    (Or.inr rfl)).2.2.1 rfl rfl

/-- C7: the MIDI-learn entry points of `AudioOutput` only forward.  The pitch-bend entry point
is the `ModControllableAudio` function on the same five arguments (same returned value, same
effect, one call recorded); the CC entry point makes exactly one call to
`offerReceivedCCToLearnedParamsForClip`, with the same five arguments in the same order, and has
no other effect. -/
theorem midiLearn_forwarding {S Dev MS : Type}
    (implCC : Dev → Nat → Nat → Nat → MS → S → S)
    (implPB : Dev → Nat → Nat → Nat → MS → S → Bool × S)
    (fromDevice : Dev) (channel b1 b2 : Nat) (modelStack : MS) (s : LearnState S Dev MS) :
    (AudioOutput.offerReceivedPitchBendToLearnedParams implPB fromDevice channel b1 b2
        modelStack s
      = ModControllableAudio.offerReceivedPitchBendToLearnedParams implPB fromDevice channel
          b1 b2 modelStack s) ∧
      (AudioOutput.offerReceivedPitchBendToLearnedParams implPB fromDevice channel b1 b2
        modelStack s).1 = (implPB fromDevice channel b1 b2 modelStack s.state).1 ∧
      (AudioOutput.offerReceivedPitchBendToLearnedParams implPB fromDevice channel b1 b2
        modelStack s).2.trace
        = s.trace ++ [LearnCall.pitchBend fromDevice channel b1 b2 modelStack] ∧
      (AudioOutput.offerReceivedCCToLearnedParams implCC fromDevice channel b1 b2
        modelStack s).trace
        = s.trace ++ [LearnCall.ccForClip fromDevice channel b1 b2 modelStack] ∧
      (AudioOutput.offerReceivedCCToLearnedParams implCC fromDevice channel b1 b2
        modelStack s).state = implCC fromDevice channel b1 b2 modelStack s.state :=
  ⟨rfl, rfl, rfl, rfl, rfl⟩

/-- C8: `setOutputRecordingFrom` leaves `inputChannel`, `outputRecordingFromIndex`,
`amplitudeLastTime`, `overrideAmplitudeEnvelopeReleaseRate` (and `envelope`) of the
`AudioOutput` as they were, for every state and every argument pair. -/
theorem setOutputRecordingFrom_frame {σ E C : Type}
    (impl : Bool → OutputPtr → σ → σ) (self : Nat) (toRecordfrom : OutputPtr)
    (monitoring : Bool) (s : AudioOutput E C × Outputs σ) :
    (AudioOutput.setOutputRecordingFrom impl self toRecordfrom monitoring s).1.inputChannel
        = s.1.inputChannel ∧
      (AudioOutput.setOutputRecordingFrom impl self toRecordfrom monitoring
        s).1.outputRecordingFromIndex = s.1.outputRecordingFromIndex ∧
      (AudioOutput.setOutputRecordingFrom impl self toRecordfrom monitoring
        s).1.amplitudeLastTime = s.1.amplitudeLastTime ∧
      (AudioOutput.setOutputRecordingFrom impl self toRecordfrom monitoring
        s).1.overrideAmplitudeEnvelopeReleaseRate = s.1.overrideAmplitudeEnvelopeReleaseRate ∧
      (AudioOutput.setOutputRecordingFrom impl self toRecordfrom monitoring s).1.envelope
        = s.1.envelope :=
  ⟨rfl, rfl, rfl, rfl, rfl⟩

end Deluge
